import Mathlib

/-!
Verification of the BM25 task search engine (`src/backend/search_engine.py`).

The Python module is embedded shallowly:

* strings are `String`, token lists are `List String`;
* Python `float` arithmetic is idealised as exact real arithmetic; every
  quantity the code computes by rational operations is kept in `ℚ`, and the
  only transcendental step, `math.log`, becomes `Real.log`.  The `self.idf`
  dictionary stores `math.log r` for rationals `r`; we record the argument
  `r` (field `idfArg`) and expose the stored value as `Real.log r` (function
  `Engine.idf`), which determines the dictionary exactly because `log` is
  injective on the positive rationals the builder produces;
* the mutable `BM25SearchEngine` object becomes a state record `Engine`
  passed and returned explicitly;
* Python's `list.sort(key=..., reverse=True)` is a stable descending sort;
  it is modelled by the stable insertion sort `sortByKeyDesc`;
* `round(x, 4)` (round to four decimal digits) is modelled by `round4`
  using `round`; the half-up/half-even difference at exact half-ticks is
  never exercised by any statement below.
-/

/-! ### Character classes and the tokenizer (source lines 34-64) -/

/-- CJK ideograph test, the regex class `[一-鿿]`. -/
def isCJK (c : Char) : Bool :=
  0x4e00 ≤ c.toNat && c.toNat ≤ 0x9fff

/-- Latin letter or digit, the regex class `[a-zA-Z0-9]`. -/
def isLatinDigit (c : Char) : Bool :=
  (97 ≤ c.toNat && c.toNat ≤ 122) || (65 ≤ c.toNat && c.toNat ≤ 90) ||
    (48 ≤ c.toNat && c.toNat ≤ 57)

/-- ASCII lower-casing of one character, modelling Python `str.lower` on the
alphabets the tokenizer distinguishes (ASCII letters; CJK ideographs are
unaffected by `lower`). -/
def pyLowerChar (c : Char) : Char :=
  if 65 ≤ c.toNat && c.toNat ≤ 90 then Char.ofNat (c.toNat + 32) else c

/-- Maximal-run scanner modelling
`re.findall(r'[一-鿿]+|[a-zA-Z0-9]+', text)`: the two alternatives
match disjoint character classes, so `findall` returns the maximal runs of
each class in left-to-right order, discarding all other characters.  The
state carries the class (`true` = CJK) and the reversed current run. -/
def findallRuns : Option (Bool × List Char) → List Char → List (List Char)
  | none, [] => []
  | some (_, cur), [] => [cur.reverse]
  | none, c :: cs =>
      if isCJK c then findallRuns (some (true, [c])) cs
      else if isLatinDigit c then findallRuns (some (false, [c])) cs
      else findallRuns none cs
  | some (k, cur), c :: cs =>
      if isCJK c then
        if k then findallRuns (some (k, c :: cur)) cs
        else cur.reverse :: findallRuns (some (true, [c])) cs
      else if isLatinDigit c then
        if k then cur.reverse :: findallRuns (some (false, [c])) cs
        else findallRuns (some (k, c :: cur)) cs
      else cur.reverse :: findallRuns none cs

/-- `BM25SearchEngine.tokenize` (lines 34-64): lower-case, take the maximal
CJK / Latin-digit runs, then split every CJK run into single characters
(the loop tests `re.match(r'[一-鿿]+', token)`, i.e. whether the
run starts with a CJK character). -/
def tokenize (text : String) : List String :=
  if text = "" then []
  else
    let lowered := text.data.map pyLowerChar
    let runs := findallRuns none lowered
    runs.foldr
      (fun tok acc =>
        if isCJK (tok.headD ' ') then (tok.map fun c => String.mk [c]) ++ acc
        else String.mk tok :: acc) []

/-! ### Data model -/

/-- A corpus document, the dictionaries handed to `build_index`
(`initialize_search_engine`, lines 199-209). -/
structure Document where
  task_id : String
  title : String
  description : String
  location_lat : ℚ
  location_lng : ℚ
  deriving DecidableEq, Inhabited

/-- The searched text of a document: `f"{doc.get('title','')} {doc.get('description','')}"`
(lines 83 and 118). -/
def docContent (d : Document) : String :=
  d.title ++ " " ++ d.description

/-- Tokens of the searched text of one document. -/
def docTokens (d : Document) : List String :=
  tokenize (docContent d)

/-- One entry of the list `search` returns (lines 168-174). -/
structure QueryResult where
  task_id : String
  title : String
  score : ℝ
  lat : ℚ
  lng : ℚ

/-- State of a `BM25SearchEngine` object (fields set in `__init__`,
lines 16-32).  `idfArg t` records the rational argument the builder passed
to `math.log` when it stored `self.idf[t]`; `none` means the key `t` is
absent from the dictionary. -/
structure Engine where
  k1 : ℚ
  b : ℚ
  documents : List Document
  doc_freqs : String → ℕ
  idfArg : String → Option ℚ
  doc_len : List ℕ
  avgdl : ℚ
  corpus_size : ℕ
  indexed : Bool

/-- The value stored in the dictionary `self.idf` at key `t`:
`math.log` applied to the recorded argument. -/
noncomputable def Engine.idf (e : Engine) (t : String) : Option ℝ :=
  (e.idfArg t).map (fun r => Real.log (r : ℝ))

/-- `BM25SearchEngine(k1, b)` (lines 16-32); the Python defaults are
`k1 = 1.5`, `b = 0.75`. -/
def initEngine (k1 : ℚ := 3/2) (b : ℚ := 3/4) : Engine :=
  { k1 := k1, b := b, documents := [], doc_freqs := fun _ => 0,
    idfArg := fun _ => none, doc_len := [], avgdl := 0, corpus_size := 0,
    indexed := false }

/-! ### Index builder (source lines 66-101) -/

/-- Increment one counter of the document-frequency map
(`self.doc_freqs[token] += 1`, line 90). -/
def bump (m : String → ℕ) (t : String) : String → ℕ :=
  fun s => if s = t then m s + 1 else m s

/-- Deduplication in first-occurrence order, structurally recursive on a
fuel bound so the kernel can evaluate it: keep the head, drop its later
duplicates, recurse. -/
def distinctAux : ℕ → List String → List String
  | _, [] => []
  | 0, _ :: _ => []
  | n + 1, t :: ts => t :: distinctAux n (ts.filter fun s => decide (s ≠ t))

/-- The distinct tokens of a token list, modelling `set(tokens)` (line 88):
only which tokens occur matters, and the counter updates below are
order-independent. -/
def distinctTokens (toks : List String) : List String :=
  distinctAux toks.length toks

/-- Per-document update of `doc_freqs` (lines 88-90): every distinct token
of the document counts once. -/
def bumpFreqs (m : String → ℕ) (toks : List String) : String → ℕ :=
  (distinctTokens toks).foldl bump m

/-- `BM25SearchEngine.build_index` (lines 66-101).  `documents`,
`corpus_size`, `doc_freqs` and `doc_len` are reset, `avgdl` is the mean
document length (`0` on an empty corpus, line 93), and for every key of the
fresh `doc_freqs` the dictionary `self.idf` is assigned
`log((N - df + 0.5) / (df + 0.5))` (lines 96-98).  Keys of `self.idf` not
in the new `doc_freqs` are NOT removed: the source never clears `self.idf`,
so stale vocabulary survives a rebuild. -/
def build_index (e : Engine) (documents : List Document) : Engine :=
  let tokensPerDoc := documents.map docTokens
  let doc_len := tokensPerDoc.map List.length
  let doc_freqs := tokensPerDoc.foldl bumpFreqs (fun _ => 0)
  let N := documents.length
  let avgdl : ℚ := if doc_len.isEmpty then 0
    else (doc_len.sum : ℚ) / (doc_len.length : ℚ)
  { k1 := e.k1, b := e.b, documents := documents, doc_freqs := doc_freqs,
    idfArg := fun t =>
      if doc_freqs t ≠ 0 then
        some (((N : ℚ) - (doc_freqs t : ℚ) + 1/2) / ((doc_freqs t : ℚ) + 1/2))
      else e.idfArg t,
    doc_len := doc_len, avgdl := avgdl, corpus_size := N, indexed := true }

/-! ### Scorer (source lines 103-141) -/

/-- The fraction `numerator / denominator` of lines 137-139:
`(tf * (k1 + 1)) / (tf + k1 * (1 - b + b * (doc_length / avgdl)))`. -/
noncomputable def bm25Weight (k1 b : ℚ) (tf doc_length : ℕ) (avgdl : ℚ) : ℝ :=
  ((tf : ℝ) * ((k1 : ℝ) + 1)) /
    ((tf : ℝ) + (k1 : ℝ) * (1 - (b : ℝ) + (b : ℝ) * ((doc_length : ℝ) / ((avgdl : ℚ) : ℝ))))

/-- The summand added for one matched query term (line 139):
`idf * (numerator / denominator)`. -/
noncomputable def termScoreRaw (k1 b : ℚ) (idf : ℝ) (tf doc_length : ℕ)
    (avgdl : ℚ) : ℝ :=
  idf * bm25Weight k1 b tf doc_length avgdl

/-- `BM25SearchEngine.get_bm25_score` (lines 103-141): `0.0` when not
indexed, otherwise a fold over the query tokens skipping tokens absent from
`self.idf` and tokens with zero term frequency in the document.
`self.documents[doc_index]` and `self.doc_len[doc_index]` are modelled with
`getD`; the claims only use in-range indices. -/
noncomputable def get_bm25_score (e : Engine) (query_tokens : List String)
    (doc_index : ℕ) : ℝ :=
  if e.indexed = false then 0
  else
    let doc := e.documents.getD doc_index default
    let doc_tokens := docTokens doc
    let doc_length := e.doc_len.getD doc_index 0
    query_tokens.foldl
      (fun score token =>
        match e.idf token with
        | none => score
        | some idf =>
            let tf := doc_tokens.count token
            if tf = 0 then score
            else score + termScoreRaw e.k1 e.b idf tf doc_length e.avgdl) 0

/-! ### Query engine (source lines 143-183) -/

/-- Python `str.isspace` characters stripped by `query.strip()`
(space, tab, newline, carriage return, vertical tab, form feed). -/
def pyIsSpace (c : Char) : Bool :=
  c.toNat = 32 || c.toNat = 9 || c.toNat = 10 || c.toNat = 13 ||
    c.toNat = 11 || c.toNat = 12

/-- Python `query.strip()`. -/
def pyStrip (s : String) : String :=
  String.mk (((s.data.dropWhile pyIsSpace).reverse.dropWhile pyIsSpace).reverse)

/-- Rounding to four decimal digits, `round(score, 4)` (line 171). -/
noncomputable def round4 (x : ℝ) : ℝ :=
  ((round (x * 10000) : ℤ) : ℝ) / 10000

/-- Stable insertion of one element into a list descending on `key`:
the element goes in front of the first entry whose key is not larger. -/
noncomputable def orderedInsertDesc {α : Type} (key : α → ℝ) (a : α) :
    List α → List α
  | [] => [a]
  | b :: l => if key b ≤ key a then a :: b :: l
      else b :: orderedInsertDesc key a l

/-- Stable descending sort by `key`, modelling
`scores.sort(key=lambda x: x['score'], reverse=True)` (line 177): Python's
sort is stable, so entries with equal keys keep their original order. -/
noncomputable def sortByKeyDesc {α : Type} (key : α → ℝ) :
    List α → List α
  | [] => []
  | a :: l => orderedInsertDesc key a (sortByKeyDesc key l)

/-- Python `enumerate` (line 165). -/
def pyEnum {α : Type} (n : ℕ) : List α → List (ℕ × α)
  | [] => []
  | a :: l => (n, a) :: pyEnum (n + 1) l

/-- The result entry built for document `doc` with raw score `s`
(lines 168-174). -/
noncomputable def mkResult (doc : Document) (s : ℝ) : QueryResult :=
  { task_id := doc.task_id, title := doc.title, score := round4 s,
    lat := doc.location_lat, lng := doc.location_lng }

/-- `BM25SearchEngine.search` (lines 143-183): guard on `self.indexed` and
`query.strip()`, tokenize, score every document keeping only strictly
positive raw scores, sort stably by descending (rounded) score, truncate to
`top_n`. -/
noncomputable def search (e : Engine) (query : String) (top_n : ℕ) :
    List QueryResult :=
  if e.indexed = false ∨ pyStrip query = "" then []
  else
    let query_tokens := tokenize query
    if query_tokens = [] then []
    else
      let scores := (pyEnum 0 e.documents).filterMap
        (fun p =>
          let s := get_bm25_score e query_tokens p.1
          if 0 < s then some (mkResult p.2 s) else none)
      (sortByKeyDesc (fun r => r.score) scores).take top_n

/-! ### Small unfolding lemmas for the builder -/

theorem build_documents (e : Engine) (docs : List Document) :
    (build_index e docs).documents = docs := rfl

theorem build_corpus_size (e : Engine) (docs : List Document) :
    (build_index e docs).corpus_size = docs.length := rfl

theorem build_doc_len (e : Engine) (docs : List Document) :
    (build_index e docs).doc_len = (docs.map docTokens).map List.length := rfl

theorem build_indexed (e : Engine) (docs : List Document) :
    (build_index e docs).indexed = true := rfl

theorem build_k1 (e : Engine) (docs : List Document) :
    (build_index e docs).k1 = e.k1 := rfl

theorem build_b (e : Engine) (docs : List Document) :
    (build_index e docs).b = e.b := rfl

theorem build_doc_freqs (e : Engine) (docs : List Document) :
    (build_index e docs).doc_freqs =
      (docs.map docTokens).foldl bumpFreqs (fun _ => 0) := rfl

theorem build_avgdl (e : Engine) (docs : List Document) :
    (build_index e docs).avgdl =
      (if ((docs.map docTokens).map List.length).isEmpty then 0
       else ((((docs.map docTokens).map List.length).sum : ℕ) : ℚ) /
         ((((docs.map docTokens).map List.length).length : ℕ) : ℚ)) := rfl

theorem build_idfArg (e : Engine) (docs : List Document) (t : String) :
    (build_index e docs).idfArg t =
      (if (build_index e docs).doc_freqs t ≠ 0 then
        some (((docs.length : ℚ) - ((build_index e docs).doc_freqs t : ℚ) + 1/2) /
          (((build_index e docs).doc_freqs t : ℚ) + 1/2))
      else e.idfArg t) := rfl

/-! ### Counting lemmas for the document-frequency map -/

theorem foldl_bump_count (L : List String) (m : String → ℕ) (t : String) :
    (L.foldl bump m) t = m t + L.count t := by
  induction L generalizing m with
  | nil => simp
  | cons a L ih =>
      simp only [List.foldl_cons, ih, bump, List.count_cons]
      by_cases h : t = a
      · subst h
        simp only [if_pos rfl, beq_self_eq_true, if_true]
        omega
      · have h' : ¬ a = t := fun hh => h hh.symm
        simp [h, h']

theorem distinctAux_mem (n : ℕ) : ∀ (l : List String) (t : String),
    l.length ≤ n → (t ∈ distinctAux n l ↔ t ∈ l) := by
  induction n with
  | zero =>
      intro l t h
      cases l with
      | nil => simp [distinctAux]
      | cons a ts => simp at h
  | succ n ih =>
      intro l t h
      cases l with
      | nil => simp [distinctAux]
      | cons a ts =>
          simp only [distinctAux, List.mem_cons]
          have hlen : (ts.filter fun s => decide (s ≠ a)).length ≤ n := by
            have h1 := List.length_filter_le (fun s => decide (s ≠ a)) ts
            have h2 : ts.length ≤ n := by simpa using h
            omega
          rw [ih _ t hlen]
          simp only [List.mem_filter, decide_eq_true_eq]
          by_cases ht : t = a
          · simp [ht]
          · simp [ht]

theorem distinctAux_nodup (n : ℕ) : ∀ (l : List String),
    l.length ≤ n → (distinctAux n l).Nodup := by
  induction n with
  | zero =>
      intro l h
      cases l with
      | nil => simp [distinctAux]
      | cons a ts => simp at h
  | succ n ih =>
      intro l h
      cases l with
      | nil => simp [distinctAux]
      | cons a ts =>
          have hlen : (ts.filter fun s => decide (s ≠ a)).length ≤ n := by
            have h1 := List.length_filter_le (fun s => decide (s ≠ a)) ts
            have h2 : ts.length ≤ n := by simpa using h
            omega
          simp only [distinctAux, List.nodup_cons]
          refine ⟨?_, ih _ hlen⟩
          intro hmem
          have := (distinctAux_mem n _ a hlen).mp hmem
          simp [List.mem_filter] at this

theorem mem_distinctTokens (toks : List String) (t : String) :
    t ∈ distinctTokens toks ↔ t ∈ toks :=
  distinctAux_mem toks.length toks t (le_refl _)

theorem nodup_distinctTokens (toks : List String) :
    (distinctTokens toks).Nodup :=
  distinctAux_nodup toks.length toks (le_refl _)

theorem bumpFreqs_apply (m : String → ℕ) (toks : List String) (t : String) :
    bumpFreqs m toks t = m t + (if t ∈ toks then 1 else 0) := by
  unfold bumpFreqs
  rw [foldl_bump_count]
  congr 1
  by_cases h : t ∈ toks
  · rw [if_pos h,
      List.count_eq_one_of_mem (nodup_distinctTokens toks)
        ((mem_distinctTokens toks t).mpr h)]
  · rw [if_neg h, List.count_eq_zero_of_not_mem]
    exact fun hc => h ((mem_distinctTokens toks t).mp hc)

theorem foldl_bumpFreqs_count (docs : List Document) (m : String → ℕ)
    (t : String) :
    ((docs.map docTokens).foldl bumpFreqs m) t =
      m t + docs.countP (fun d => decide (t ∈ docTokens d)) := by
  induction docs generalizing m with
  | nil => simp
  | cons d docs ih =>
      simp only [List.map_cons, List.foldl_cons, ih, bumpFreqs_apply,
        List.countP_cons]
      by_cases h : t ∈ docTokens d
      · simp [h]; omega
      · simp [h]

/-- Document frequency after a (re)build counts the documents containing the
term at least once. -/
theorem build_doc_freqs_eq_countP (e : Engine) (docs : List Document)
    (t : String) :
    (build_index e docs).doc_freqs t =
      docs.countP (fun d => decide (t ∈ docTokens d)) := by
  rw [build_doc_freqs, foldl_bumpFreqs_count]
  simp

theorem build_doc_freqs_le (e : Engine) (docs : List Document) (t : String) :
    (build_index e docs).doc_freqs t ≤ docs.length := by
  rw [build_doc_freqs_eq_countP]; exact List.countP_le_length _

/-! ### Claim C10 -/

/-- C10: if `build_index` has never completed (the `indexed` flag is false),
`search` returns the empty list for every query and every `top_n`, and
`get_bm25_score` returns `0.0` for every query-token list and document
index. -/
theorem c10_unindexed_engine (e : Engine) (q : String) (n : ℕ)
    (qts : List String) (i : ℕ) (h : e.indexed = false) :
    search e q n = [] ∧ get_bm25_score e qts i = 0 := by
  constructor
  · simp [search, h]
  · simp [get_bm25_score, h]

theorem c10_unindexed_engine_witness :
    (initEngine).indexed = false ∧
      (search (initEngine) "library" 10 = [] ∧
        get_bm25_score (initEngine) ["library"] 0 = 0) :=
  ⟨rfl, c10_unindexed_engine (initEngine) "library" 10 ["library"] 0 rfl⟩

/-! ### Claim C7 -/

/-- The two divisions the scorer performs for a matched term (lines 137-138)
have nonzero divisors whenever they are reached: a term is only scored when
it is a key of `self.idf` and its term frequency in the document is nonzero. -/
def scorerDivisionsSafe (e : Engine) (query_tokens : List String)
    (doc_index : ℕ) : Prop :=
  ∀ t ∈ query_tokens, (e.idfArg t).isSome = true →
    (docTokens (e.documents.getD doc_index default)).count t ≠ 0 →
      e.avgdl ≠ 0 ∧
      ((docTokens (e.documents.getD doc_index default)).count t : ℝ) +
        (e.k1 : ℝ) * (1 - (e.b : ℝ) + (e.b : ℝ) *
          ((e.doc_len.getD doc_index 0 : ℝ) / ((e.avgdl : ℚ) : ℝ))) ≠ 0

/-- Any engine whose document list is empty answers every query with `[]`. -/
theorem search_nil_documents (e : Engine) (h : e.documents = [])
    (q : String) (n : ℕ) : search e q n = [] := by
  by_cases h1 : e.indexed = false ∨ pyStrip q = ""
  · simp [search, h1]
  · by_cases h2 : tokenize q = []
    · simp [search, h1, h2]
    · simp [search, h1, h2, h, pyEnum, sortByKeyDesc]

/-- C7: an index built from the empty corpus has `avgdl = 0`, answers every
query with the empty list, and the scorer's divisions are unreachable, so no
division by zero occurs. -/
theorem c7_empty_corpus (e : Engine) (q : String) (n : ℕ)
    (qts : List String) (i : ℕ) :
    (build_index e []).avgdl = 0 ∧ search (build_index e []) q n = [] ∧
      scorerDivisionsSafe (build_index e []) qts i := by
  refine ⟨rfl, search_nil_documents _ rfl q n, ?_⟩
  intro t ht hsome htf
  exfalso
  apply htf
  have hdoc : (build_index e []).documents.getD i default = default := rfl
  rw [hdoc]
  have htoks : docTokens default = [] := rfl
  rw [htoks]
  rfl

theorem c7_empty_corpus_witness :
    (build_index (initEngine) []).avgdl = 0 ∧
      search (build_index (initEngine) []) "anything" 10 = [] :=
  ⟨(c7_empty_corpus (initEngine) "anything" 10 ["anything"] 0).1,
    (c7_empty_corpus (initEngine) "anything" 10 ["anything"] 0).2.1⟩

/-! ### Claim C2 -/

/-- First corpus: one document whose text tokenizes to the single term
"hello". -/
def docHello : Document :=
  { task_id := "T1", title := "hello", description := "", location_lat := 0,
    location_lng := 0 }

/-- Second corpus: one document whose text tokenizes to the single term
"world". -/
def docWorld : Document :=
  { task_id := "T2", title := "world", description := "", location_lat := 0,
    location_lng := 0 }

/-- The engine after building over `[docHello]` and then rebuilding over
`[docWorld]`. -/
def engineRebuilt : Engine :=
  build_index (build_index (initEngine) [docHello]) [docWorld]

/-- C2 fails on the code: after a rebuild over a different corpus the length
invariants still hold, but the key "hello" of the first build survives in
the `self.idf` dictionary (`build_index` never clears it, line 96 only
overwrites keys of the new `doc_freqs`) while the rebuilt
document-frequency map does not contain it, so the two key sets differ. -/
theorem c2_rebuild_stale_idf_key :
    (engineRebuilt.doc_len.length = engineRebuilt.documents.length ∧
      engineRebuilt.documents.length = engineRebuilt.corpus_size) ∧
    (engineRebuilt.idfArg "hello").isSome = true ∧
    engineRebuilt.doc_freqs "hello" = 0 ∧
    (engineRebuilt.idfArg "world").isSome = true ∧
    engineRebuilt.doc_freqs "world" = 1 := by
  refine ⟨⟨rfl, rfl⟩, ?_, ?_, ?_, ?_⟩ <;> decide

/-! ### Claim C8 -/

theorem pyEnum_fst_lt {α : Type} (l : List α) (n : ℕ) (p : ℕ × α)
    (hp : p ∈ pyEnum n l) : p.1 < n + l.length := by
  induction l generalizing n with
  | nil => simp [pyEnum] at hp
  | cons a l ih =>
      simp only [pyEnum, List.mem_cons] at hp
      rcases hp with rfl | hp
      · simp
      · have := ih (n + 1) hp
        simp only [List.length_cons]
        omega

/-- When reached with a query token list whose every token is outside the
vocabulary of the (re)built index, the scorer returns zero. -/
theorem score_zero_of_no_vocab (e0 : Engine) (docs : List Document)
    (qts : List String)
    (h : ∀ t ∈ qts, (build_index e0 docs).doc_freqs t = 0) (i : ℕ)
    (hi : i < docs.length) :
    get_bm25_score (build_index e0 docs) qts i = 0 := by
  unfold get_bm25_score
  rw [if_neg (by simp [build_indexed])]
  have hdoc : (build_index e0 docs).documents.getD i default =
      docs.get ⟨i, hi⟩ := by
    rw [build_documents]
    simp [List.getD_eq_getElem?_getD, List.getElem?_eq_getElem hi,
      List.get_eq_getElem]
  have hmem : docs.get ⟨i, hi⟩ ∈ docs := List.get_mem docs i hi
  have hcount : ∀ t ∈ qts,
      (docTokens ((build_index e0 docs).documents.getD i default)).count t
        = 0 := by
    intro t ht
    rw [hdoc, List.count_eq_zero_of_not_mem]
    have hz := h t ht
    rw [build_doc_freqs_eq_countP] at hz
    have := List.countP_eq_zero.mp hz _ hmem
    simpa using this
  induction qts with
  | nil => simp
  | cons t qts ih =>
      have ht0 := hcount t (by simp)
      simp only [List.foldl_cons]
      cases hidf : (build_index e0 docs).idf t with
      | none =>
          exact ih (fun s hs => h s (by simp [hs]))
            (fun s hs => hcount s (by simp [hs]))
      | some v =>
          simp only [ht0, if_pos rfl]
          exact ih (fun s hs => h s (by simp [hs]))
            (fun s hs => hcount s (by simp [hs]))

/-- The main branch of `search`, reached when the engine is indexed, the
query does not strip to the empty string and tokenizes to at least one
token. -/
theorem search_main (e : Engine) (q : String) (n : ℕ)
    (h1 : ¬(e.indexed = false ∨ pyStrip q = "")) (h2 : ¬ tokenize q = []) :
    search e q n =
      (sortByKeyDesc (fun r => r.score) ((pyEnum 0 e.documents).filterMap
        (fun p =>
          if 0 < get_bm25_score e (tokenize q) p.1 then
            some (mkResult p.2 (get_bm25_score e (tokenize q) p.1))
          else none))).take n := by
  simp only [search, if_neg h1, if_neg h2]

/-- C8: over any built index on a non-empty corpus, a query that is empty or
whitespace-only, or tokenizes to no terms, or tokenizes only to terms
outside the index vocabulary, yields the empty result list (a normal
outcome, not an error). -/
theorem c8_degenerate_queries (e0 : Engine) (docs : List Document)
    (q : String) (n : ℕ) (hne : docs ≠ [])
    (h : (∀ c ∈ q.data, pyIsSpace c = true) ∨ tokenize q = [] ∨
      (∀ t ∈ tokenize q, (build_index e0 docs).doc_freqs t = 0)) :
    search (build_index e0 docs) q n = [] := by
  rcases h with hA | hB | hC
  · have hstrip : pyStrip q = "" := by
      unfold pyStrip
      have h1 : q.data.dropWhile pyIsSpace = [] :=
        List.dropWhile_eq_nil_iff.mpr hA
      rw [h1]
      rfl
    simp [search, hstrip]
  · by_cases h1 : (build_index e0 docs).indexed = false ∨ pyStrip q = ""
    · simp [search, h1]
    · simp [search, h1, hB]
  · by_cases h1 : (build_index e0 docs).indexed = false ∨ pyStrip q = ""
    · simp [search, h1]
    · by_cases h2 : tokenize q = []
      · simp [search, h1, h2]
      · rw [search_main _ _ _ h1 h2]
        rw [List.filterMap_eq_nil_iff.mpr ?_]
        · simp [sortByKeyDesc]
        · intro p hp
          rw [if_neg]
          rw [score_zero_of_no_vocab e0 docs _ hC p.1
            (by simpa [build_documents] using pyEnum_fst_lt _ 0 p hp)]
          exact lt_irrefl 0

/-- One-document corpus used by several witnesses. -/
def docLibrary : Document :=
  { task_id := "T1", title := "library", description := "study hall",
    location_lat := 22, location_lng := 114 }

theorem c8_degenerate_queries_witness :
    (([docLibrary] : List Document) ≠ [] ∧
      ∀ t ∈ tokenize "xyz", (build_index (initEngine) [docLibrary]).doc_freqs t = 0) ∧
    search (build_index (initEngine) [docLibrary]) "xyz" 10 = [] := by
  refine ⟨⟨by decide, by decide⟩, ?_⟩
  exact c8_degenerate_queries (initEngine) [docLibrary] "xyz" 10 (by decide)
    (Or.inr (Or.inr (by decide)))

/-! ### Claim C4 -/

/-- C4: after building an index over a corpus of `N` documents, the
document-frequency map counts, for each term, the documents whose tokenized
title-and-description contain the term at least once; every term of the
vocabulary gets `idf = ln((N - df + 0.5) / (df + 0.5))`, terms outside the
corpus are absent from the map, and a term occurring in more than half the
corpus gets a strictly negative idf. -/
theorem c4_doc_freq_and_idf (docs : List Document) (t : String) :
    (build_index (initEngine) docs).doc_freqs t =
      docs.countP (fun d => decide (t ∈ docTokens d)) ∧
    ((build_index (initEngine) docs).doc_freqs t ≠ 0 →
      (build_index (initEngine) docs).idf t =
        some (Real.log ((((docs.length : ℚ) -
          ((build_index (initEngine) docs).doc_freqs t : ℚ) + 1/2) /
          (((build_index (initEngine) docs).doc_freqs t : ℚ) + 1/2) : ℚ) : ℝ))) ∧
    ((build_index (initEngine) docs).doc_freqs t = 0 →
      (build_index (initEngine) docs).idf t = none) ∧
    (docs.length < 2 * (build_index (initEngine) docs).doc_freqs t →
      ∃ v, (build_index (initEngine) docs).idf t = some v ∧ v < 0) := by
  refine ⟨build_doc_freqs_eq_countP _ docs t, ?_, ?_, ?_⟩
  · intro h
    unfold Engine.idf
    rw [build_idfArg, if_pos h]
    rfl
  · intro h
    unfold Engine.idf
    rw [build_idfArg, if_neg (by simp [h])]
    rfl
  · intro h
    set df := (build_index (initEngine) docs).doc_freqs t with hdf
    have hdf0 : df ≠ 0 := by omega
    have hdfN : df ≤ docs.length := build_doc_freqs_le _ docs t
    refine ⟨Real.log ((((docs.length : ℚ) - (df : ℚ) + 1/2) /
      ((df : ℚ) + 1/2) : ℚ) : ℝ), ?_, ?_⟩
    · unfold Engine.idf
      rw [build_idfArg, ← hdf, if_pos hdf0]
      rfl
    · apply Real.log_neg
      · push_cast
        apply div_pos
        · have : (df : ℝ) ≤ (docs.length : ℝ) := by exact_mod_cast hdfN
          linarith
        · positivity
      · push_cast
        rw [div_lt_one (by positivity)]
        have : (docs.length : ℝ) < 2 * (df : ℝ) := by exact_mod_cast h
        linarith

/-- Three-document corpus: the term "campus" occurs in two of the three
documents, hence more than half the corpus. -/
def docsC4 : List Document :=
  [{ task_id := "T1", title := "campus tour", description := "campus walk",
     location_lat := 0, location_lng := 0 },
   { task_id := "T2", title := "campus food", description := "",
     location_lat := 0, location_lng := 0 },
   { task_id := "T3", title := "gym", description := "",
     location_lat := 0, location_lng := 0 }]

theorem c4_doc_freq_and_idf_witness :
    (build_index (initEngine) docsC4).doc_freqs "campus" = 2 ∧
    (build_index (initEngine) docsC4).idf "campus" =
      some (Real.log ((((3 : ℚ) - (2 : ℚ) + 1/2) / ((2 : ℚ) + 1/2) : ℚ) : ℝ)) ∧
    (build_index (initEngine) docsC4).idf "gym" =
      some (Real.log ((((3 : ℚ) - (1 : ℚ) + 1/2) / ((1 : ℚ) + 1/2) : ℚ) : ℝ)) ∧
    (build_index (initEngine) docsC4).idf "pool" = none ∧
    (∃ v, (build_index (initEngine) docsC4).idf "campus" = some v ∧ v < 0) := by
  have h1 := c4_doc_freq_and_idf docsC4 "campus"
  have h2 := c4_doc_freq_and_idf docsC4 "gym"
  have h3 := c4_doc_freq_and_idf docsC4 "pool"
  have hdf1 : (build_index (initEngine) docsC4).doc_freqs "campus" = 2 := by
    decide
  have hdf2 : (build_index (initEngine) docsC4).doc_freqs "gym" = 1 := by
    decide
  have hdf3 : (build_index (initEngine) docsC4).doc_freqs "pool" = 0 := by
    decide
  refine ⟨hdf1, ?_, ?_, h3.2.2.1 hdf3, ?_⟩
  · have := h1.2.1 (by rw [hdf1]; omega)
    rw [hdf1] at this
    simpa [docsC4] using this
  · have := h2.2.1 (by rw [hdf2]; omega)
    rw [hdf2] at this
    simpa [docsC4] using this
  · exact h1.2.2.2 (by rw [hdf1]; decide)

/-! ### Claim C3 -/

/-- Per-term BM25 contribution as the spec states it (section 4.3): 0 for a
term absent from the index's IDF map, 0 for a term with zero occurrence
count in the document's tokenized title-and-description, and otherwise
`idf * (tf * (k1 + 1)) / (tf + k1 * (1 - b + b * (docLength / avgdl)))`
where `docLength` is the document's token count.  This definition follows
the spec's wording and is compared against the source scorer below. -/
noncomputable def specContribution (e : Engine) (d : Document) (t : String) : ℝ :=
  match e.idf t with
  | none => 0
  | some idf =>
      let tf := (docTokens d).count t
      if tf = 0 then 0
      else idf * ((tf : ℝ) * ((e.k1 : ℝ) + 1)) /
        ((tf : ℝ) + (e.k1 : ℝ) * (1 - (e.b : ℝ) + (e.b : ℝ) *
          (((docTokens d).length : ℝ) / ((e.avgdl : ℚ) : ℝ))))

theorem foldl_term_sum (e : Engine) (dtoks : List String) (dl : ℕ)
    (qts : List String) (a : ℝ) :
    qts.foldl (fun score token =>
      match e.idf token with
      | none => score
      | some idf =>
          let tf := dtoks.count token
          if tf = 0 then score
          else score + termScoreRaw e.k1 e.b idf tf dl e.avgdl) a
    = a + (qts.map (fun t =>
        match e.idf t with
        | none => (0 : ℝ)
        | some idf =>
            let tf := dtoks.count t
            if tf = 0 then 0
            else termScoreRaw e.k1 e.b idf tf dl e.avgdl)).sum := by
  induction qts generalizing a with
  | nil => simp
  | cons t qts ih =>
      simp only [List.foldl_cons, List.map_cons, List.sum_cons]
      cases h : e.idf t with
      | none =>
          simp only [h]
          rw [ih]
          ring
      | some v =>
          by_cases htf : dtoks.count t = 0
          · rw [ih]
            simp [h, htf]
          · rw [ih]
            simp only [h, if_neg htf]
            ring

/-- C3: on an index freshly built with the default parameters `k1 = 1.5`,
`b = 0.75` over a non-empty corpus, the scorer returns exactly the sum,
over the query terms, of the spec's per-term contribution. -/
theorem c3_score_is_sum_of_contributions (docs : List Document)
    (qts : List String) (i : ℕ) (hne : docs ≠ [])
    (hi : i < (build_index (initEngine) docs).corpus_size) :
    get_bm25_score (build_index (initEngine) docs) qts i =
      (qts.map (specContribution (build_index (initEngine) docs)
        (docs.getD i default))).sum := by
  have h1 : i < docs.length := by simpa [build_corpus_size] using hi
  have hget : docs.getD i default = docs.get ⟨i, h1⟩ := by
    simp [List.getD_eq_getElem?_getD, List.getElem?_eq_getElem h1,
      List.get_eq_getElem]
  have hdoc : (build_index (initEngine) docs).documents.getD i default =
      docs.getD i default := by
    rw [build_documents]
  have hlen : (build_index (initEngine) docs).doc_len.getD i 0 =
      (docTokens (docs.getD i default)).length := by
    rw [build_doc_len, hget, List.map_map]
    simp [List.getD_eq_getElem?_getD, List.getElem?_map,
      List.getElem?_eq_getElem h1, List.get_eq_getElem]
  unfold get_bm25_score
  rw [if_neg (by simp [build_indexed])]
  simp only [hdoc, hlen]
  rw [foldl_term_sum]
  rw [zero_add]
  congr 1
  apply List.map_congr_left
  intro t ht
  unfold specContribution
  simp only [List.getD_eq_getElem?_getD]
  cases h : (build_index (initEngine) docs).idf t with
  | none => simp [h]
  | some v =>
      simp only [h]
      by_cases htf : (docTokens (docs[i]?.getD default)).count t = 0
      · simp [htf]
      · simp only [if_neg htf]
        unfold termScoreRaw bm25Weight
        ring

theorem c3_score_is_sum_of_contributions_witness :
    (([docLibrary] : List Document) ≠ [] ∧
      0 < (build_index (initEngine) [docLibrary]).corpus_size) ∧
    get_bm25_score (build_index (initEngine) [docLibrary]) ["library", "pool"] 0 =
      (((["library", "pool"] : List String)).map
        (specContribution (build_index (initEngine) [docLibrary])
          (([docLibrary] : List Document).getD 0 default))).sum :=
  ⟨⟨by decide, by decide⟩,
    c3_score_is_sum_of_contributions [docLibrary] ["library", "pool"] 0
      (by decide) (by decide)⟩

/-! ### Claim C6 -/

/-- The per-term score contribution of the scorer as a function of the
occurrence count: a term with zero occurrences contributes `0` (the loop
`continue`s at line 131), a matched term contributes the summand of
line 139. -/
noncomputable def termContribution (k1 b : ℚ) (idf : ℝ) (tf doc_length : ℕ)
    (avgdl : ℚ) : ℝ :=
  if tf = 0 then 0 else termScoreRaw k1 b idf tf doc_length avgdl

/-- Helper: the normalization factor in the denominator is nonnegative for
`0 ≤ b ≤ 1` and nonnegative length statistics. -/
theorem bm25_norm_nonneg (b : ℚ) (doc_length : ℕ) (avgdl : ℚ) (hb0 : 0 ≤ b)
    (hb1 : b ≤ 1) (ha : 0 ≤ avgdl) :
    0 ≤ 1 - (b : ℝ) + (b : ℝ) * ((doc_length : ℝ) / ((avgdl : ℚ) : ℝ)) := by
  have hb0' : (0 : ℝ) ≤ (b : ℝ) := by exact_mod_cast hb0
  have hb1' : (b : ℝ) ≤ 1 := by exact_mod_cast hb1
  have hx : (0 : ℝ) ≤ (doc_length : ℝ) / ((avgdl : ℚ) : ℝ) := by
    apply div_nonneg
    · positivity
    · exact_mod_cast ha
  nlinarith

/-- C6 (amended): for a term whose idf weight is nonnegative, increasing
the occurrence count while holding the document length and all index
statistics fixed never decreases the per-term contribution.  (The original
claim omitted the sign condition; the counterexample below shows it fails
for negative idf.) -/
theorem c6_amended_tf_monotone_nonneg_idf (k1 b : ℚ) (idf : ℝ)
    (tf tf' doc_length : ℕ) (avgdl : ℚ) (hidf : 0 ≤ idf) (hk1 : 0 < k1)
    (hb0 : 0 ≤ b) (hb1 : b ≤ 1) (ha : 0 ≤ avgdl) (htf : tf ≤ tf') :
    termContribution k1 b idf tf doc_length avgdl ≤
      termContribution k1 b idf tf' doc_length avgdl := by
  have hk1' : (0 : ℝ) < (k1 : ℝ) := by exact_mod_cast hk1
  have hK : 0 ≤ (k1 : ℝ) *
      (1 - (b : ℝ) + (b : ℝ) * ((doc_length : ℝ) / ((avgdl : ℚ) : ℝ))) :=
    mul_nonneg hk1'.le (bm25_norm_nonneg b doc_length avgdl hb0 hb1 ha)
  set K : ℝ := (k1 : ℝ) *
    (1 - (b : ℝ) + (b : ℝ) * ((doc_length : ℝ) / ((avgdl : ℚ) : ℝ))) with hKdef
  unfold termContribution termScoreRaw bm25Weight
  rw [← hKdef]
  by_cases h0 : tf = 0
  · rw [if_pos h0]
    by_cases h0' : tf' = 0
    · rw [if_pos h0']
    · rw [if_neg h0']
      have ht2 : (0 : ℝ) < (tf' : ℝ) := by
        have h := Nat.pos_of_ne_zero h0'
        exact_mod_cast h
      apply mul_nonneg hidf
      apply div_nonneg
      · positivity
      · linarith
  · have h0' : tf' ≠ 0 := by
      intro hc
      exact h0 (Nat.le_zero.mp (hc ▸ htf))
    rw [if_neg h0, if_neg h0']
    apply mul_le_mul_of_nonneg_left _ hidf
    have ht1 : (0 : ℝ) < (tf : ℝ) := by
      have : 0 < tf := Nat.pos_of_ne_zero h0
      exact_mod_cast this
    have ht2 : (0 : ℝ) < (tf' : ℝ) := by
      have : 0 < tf' := Nat.pos_of_ne_zero h0'
      exact_mod_cast this
    have htle : (tf : ℝ) ≤ (tf' : ℝ) := by exact_mod_cast htf
    rw [div_le_div_iff (by linarith) (by linarith)]
    nlinarith [mul_nonneg (mul_nonneg
      (le_of_lt (by linarith : (0 : ℝ) < (k1 : ℝ) + 1)) hK)
      (sub_nonneg.mpr htle)]

theorem c6_amended_tf_monotone_nonneg_idf_witness :
    ((0 : ℝ) ≤ 1 ∧ (0 : ℚ) < 3/2 ∧ (0 : ℚ) ≤ 3/4 ∧ (3/4 : ℚ) ≤ 1 ∧
      (0 : ℚ) ≤ 2 ∧ (1 : ℕ) ≤ 2) ∧
    termContribution (3/2) (3/4) 1 1 2 2 ≤ termContribution (3/2) (3/4) 1 2 2 2 :=
  ⟨⟨by norm_num, by norm_num, by norm_num, by norm_num, by norm_num, by norm_num⟩,
    c6_amended_tf_monotone_nonneg_idf (3/2) (3/4) 1 1 2 2 2 (by norm_num)
      (by norm_num) (by norm_num) (by norm_num) (by norm_num) (by norm_num)⟩

/-- The idf argument stored for a term with known nonzero document
frequency. -/
theorem build_idfArg_of_freq (e : Engine) (docs : List Document) (t : String)
    (n : ℕ) (h : (build_index e docs).doc_freqs t = n) (hn : n ≠ 0) :
    (build_index e docs).idfArg t =
      some (((docs.length : ℚ) - (n : ℚ) + 1/2) / ((n : ℚ) + 1/2)) := by
  rw [build_idfArg, h, if_pos hn]

/-- The average document length for known per-document token counts. -/
theorem build_avgdl_of_lens (e : Engine) (docs : List Document)
    (ls : List ℕ) (h : (docs.map docTokens).map List.length = ls)
    (hne : ls ≠ []) :
    (build_index e docs).avgdl = (ls.sum : ℚ) / (ls.length : ℚ) := by
  rw [build_avgdl, h, if_neg (by simp [hne])]

/-- Evaluation of the scorer on a one-token query that matches the
document. -/
theorem score_single (e : Engine) (t : String) (i : ℕ)
    (hind : e.indexed = true) (r : ℚ) (hr : e.idfArg t = some r) (tf : ℕ)
    (htf : (docTokens (e.documents.getD i default)).count t = tf)
    (h0 : tf ≠ 0) :
    get_bm25_score e [t] i =
      termScoreRaw e.k1 e.b (Real.log ((r : ℚ) : ℝ)) tf
        (e.doc_len.getD i 0) e.avgdl := by
  have hidf : e.idf t = some (Real.log ((r : ℚ) : ℝ)) := by
    simp [Engine.idf, hr]
  unfold get_bm25_score
  rw [if_neg (by simp [hind])]
  simp only [List.foldl_cons, List.foldl_nil, hidf]
  simp only [htf, if_neg h0, zero_add]

/-- Document "aa bb bb": one occurrence of the query term, length 3. -/
def docC6P : Document :=
  { task_id := "T1", title := "aa", description := "bb bb",
    location_lat := 0, location_lng := 0 }

/-- Document "aa aa bb": two occurrences of the query term, length 3. -/
def docC6Q : Document :=
  { task_id := "T1", title := "aa", description := "aa bb",
    location_lat := 0, location_lng := 0 }

/-- Filler document containing "aa", shared by both corpora. -/
def docC6a : Document :=
  { task_id := "T2", title := "aa", description := "", location_lat := 0,
    location_lng := 0 }

/-- Second filler document containing "aa", shared by both corpora. -/
def docC6b : Document :=
  { task_id := "T3", title := "aa", description := "", location_lat := 0,
    location_lng := 0 }

/-- Engine over the corpus whose first document has `tf("aa") = 1`. -/
def engC6P : Engine := build_index (initEngine) [docC6P, docC6a, docC6b]

/-- Engine over the corpus whose first document has `tf("aa") = 2`,
same document length and identical index statistics. -/
def engC6Q : Engine := build_index (initEngine) [docC6Q, docC6a, docC6b]

/-- C6 fails on the code as stated: the term "aa" occurs in all three
documents of both corpora, so its idf `ln(1/7)` is negative; raising its
occurrence count in the first document from 1 to 2 while the document
length (3 tokens) and every index statistic stay fixed strictly lowers the
document's score. -/
theorem c6_counterexample_negative_idf :
    engC6P.idfArg "aa" = engC6Q.idfArg "aa" ∧
    engC6P.idfArg "bb" = engC6Q.idfArg "bb" ∧
    engC6P.avgdl = engC6Q.avgdl ∧
    engC6P.doc_len = engC6Q.doc_len ∧
    (docTokens docC6P).count "aa" = 1 ∧
    (docTokens docC6Q).count "aa" = 2 ∧
    (docTokens docC6P).length = (docTokens docC6Q).length ∧
    get_bm25_score engC6Q ["aa"] 0 < get_bm25_score engC6P ["aa"] 0 := by
  have hiP : engC6P.idfArg "aa" = some (1/7 : ℚ) := by
    rw [show engC6P = build_index (initEngine) [docC6P, docC6a, docC6b]
      from rfl]
    rw [build_idfArg_of_freq (initEngine) _ "aa" 3 (by decide) (by decide)]
    norm_num
  have hiQ : engC6Q.idfArg "aa" = some (1/7 : ℚ) := by
    rw [show engC6Q = build_index (initEngine) [docC6Q, docC6a, docC6b]
      from rfl]
    rw [build_idfArg_of_freq (initEngine) _ "aa" 3 (by decide) (by decide)]
    norm_num
  have hbP2 : engC6P.idfArg "bb" = some (5/3 : ℚ) := by
    rw [show engC6P = build_index (initEngine) [docC6P, docC6a, docC6b]
      from rfl]
    rw [build_idfArg_of_freq (initEngine) _ "bb" 1 (by decide) (by decide)]
    norm_num
  have hbQ2 : engC6Q.idfArg "bb" = some (5/3 : ℚ) := by
    rw [show engC6Q = build_index (initEngine) [docC6Q, docC6a, docC6b]
      from rfl]
    rw [build_idfArg_of_freq (initEngine) _ "bb" 1 (by decide) (by decide)]
    norm_num
  have haP : engC6P.avgdl = 5/3 := by
    rw [show engC6P = build_index (initEngine) [docC6P, docC6a, docC6b]
      from rfl]
    rw [build_avgdl_of_lens (initEngine) _ [3, 1, 1] (by decide) (by decide)]
    norm_num
  have haQ : engC6Q.avgdl = 5/3 := by
    rw [show engC6Q = build_index (initEngine) [docC6Q, docC6a, docC6b]
      from rfl]
    rw [build_avgdl_of_lens (initEngine) _ [3, 1, 1] (by decide) (by decide)]
    norm_num
  refine ⟨by rw [hiP, hiQ], by rw [hbP2, hbQ2], by rw [haP, haQ], by decide,
    by decide, by decide, by decide, ?_⟩
  have hP := score_single engC6P "aa" 0 rfl (1/7) hiP 1 (by decide)
    (by decide)
  have hQ := score_single engC6Q "aa" 0 rfl (1/7) hiQ 2 (by decide)
    (by decide)
  rw [hP, hQ]
  have hkP : engC6P.k1 = 3/2 := rfl
  have hbP : engC6P.b = 3/4 := rfl
  have hkQ : engC6Q.k1 = 3/2 := rfl
  have hbQ : engC6Q.b = 3/4 := rfl
  have hlP : engC6P.doc_len.getD 0 0 = 3 := by decide
  have hlQ : engC6Q.doc_len.getD 0 0 = 3 := by decide
  rw [hkP, hbP, hkQ, hbQ, hlP, hlQ, haP, haQ]
  unfold termScoreRaw
  have hL : Real.log (((1/7 : ℚ) : ℚ) : ℝ) < 0 := by
    apply Real.log_neg <;> norm_num
  have hw : bm25Weight (3/2) (3/4) 1 3 (5/3) < bm25Weight (3/2) (3/4) 2 3 (5/3) := by
    unfold bm25Weight
    push_cast
    norm_num
  exact mul_lt_mul_of_neg_left hw hL

/-! ### Claim C5 -/

theorem mem_orderedInsertDesc {α : Type} (key : α → ℝ) (a x : α)
    (l : List α) : x ∈ orderedInsertDesc key a l ↔ x = a ∨ x ∈ l := by
  induction l with
  | nil => simp [orderedInsertDesc]
  | cons b l ih =>
      unfold orderedInsertDesc
      by_cases h : key b ≤ key a
      · simp [h]
      · simp only [if_neg h, List.mem_cons, ih]
        tauto

theorem pairwise_orderedInsertDesc {α : Type} (key : α → ℝ) (a : α)
    (l : List α) (hl : l.Pairwise (fun x y => key y ≤ key x)) :
    (orderedInsertDesc key a l).Pairwise (fun x y => key y ≤ key x) := by
  induction l with
  | nil => simp [orderedInsertDesc]
  | cons b l ih =>
      rcases List.pairwise_cons.mp hl with ⟨hb, hl'⟩
      unfold orderedInsertDesc
      by_cases h : key b ≤ key a
      · rw [if_pos h]
        refine List.pairwise_cons.mpr ⟨?_, hl⟩
        intro y hy
        rcases List.mem_cons.mp hy with rfl | hy'
        · exact h
        · exact le_trans (hb y hy') h
      · rw [if_neg h]
        refine List.pairwise_cons.mpr ⟨?_, ih hl'⟩
        intro y hy
        rcases (mem_orderedInsertDesc key a y l).mp hy with rfl | hy'
        · exact le_of_lt (not_le.mp h)
        · exact hb y hy'

theorem pairwise_stable_orderedInsertDesc {α : Type} (key : α → ℝ)
    (q : α → α → Prop) (a : α) (l : List α)
    (hstab : l.Pairwise (fun x y => key x = key y → q x y))
    (ha : ∀ x ∈ l, q a x) :
    (orderedInsertDesc key a l).Pairwise
      (fun x y => key x = key y → q x y) := by
  induction l with
  | nil => simp [orderedInsertDesc]
  | cons b l ih =>
      rcases List.pairwise_cons.mp hstab with ⟨hb, hl'⟩
      unfold orderedInsertDesc
      by_cases h : key b ≤ key a
      · rw [if_pos h]
        refine List.pairwise_cons.mpr ⟨?_, hstab⟩
        intro y hy _
        exact ha y hy
      · rw [if_neg h]
        refine List.pairwise_cons.mpr
          ⟨?_, ih hl' (fun x hx => ha x (List.mem_cons_of_mem b hx))⟩
        intro y hy hkey
        rcases (mem_orderedInsertDesc key a y l).mp hy with rfl | hy'
        · exact absurd hkey (ne_of_gt (not_le.mp h))
        · exact hb y hy' hkey

theorem mem_sortByKeyDesc {α : Type} (key : α → ℝ) (x : α) (l : List α) :
    x ∈ sortByKeyDesc key l ↔ x ∈ l := by
  induction l with
  | nil => simp [sortByKeyDesc]
  | cons a l ih =>
      unfold sortByKeyDesc
      rw [mem_orderedInsertDesc, ih, List.mem_cons]

theorem sortByKeyDesc_sorted {α : Type} (key : α → ℝ) (l : List α) :
    (sortByKeyDesc key l).Pairwise (fun x y => key y ≤ key x) := by
  induction l with
  | nil => simp [sortByKeyDesc]
  | cons a l ih => exact pairwise_orderedInsertDesc key a _ ih

theorem sortByKeyDesc_stable {α : Type} (key : α → ℝ) (q : α → α → Prop)
    (l : List α) (h : l.Pairwise q) :
    (sortByKeyDesc key l).Pairwise (fun x y => key x = key y → q x y) := by
  induction l with
  | nil => simp [sortByKeyDesc]
  | cons a l ih =>
      rcases List.pairwise_cons.mp h with ⟨ha, hl⟩
      exact pairwise_stable_orderedInsertDesc key q a _ (ih hl)
        (fun x hx => ha x ((mem_sortByKeyDesc key x l).mp hx))

theorem pyEnum_fst_ge {α : Type} (l : List α) (n : ℕ) (p : ℕ × α)
    (hp : p ∈ pyEnum n l) : n ≤ p.1 := by
  induction l generalizing n with
  | nil => simp [pyEnum] at hp
  | cons a l ih =>
      simp only [pyEnum, List.mem_cons] at hp
      rcases hp with rfl | hp
      · exact le_refl n
      · exact le_trans (Nat.le_succ n) (ih (n + 1) hp)

theorem pyEnum_pairwise_fst {α : Type} (l : List α) (n : ℕ) :
    (pyEnum n l).Pairwise (fun p q => p.1 < q.1) := by
  induction l generalizing n with
  | nil => exact List.Pairwise.nil
  | cons a l ih =>
      refine List.pairwise_cons.mpr ⟨?_, ih (n + 1)⟩
      intro q hq
      exact lt_of_lt_of_le (Nat.lt_succ_self n) (pyEnum_fst_ge l (n + 1) q hq)

theorem pairwise_filterMap_of {α β : Type} (g : α → Option β)
    (R : α → α → Prop) (S : β → β → Prop)
    (hg : ∀ a b, R a b → ∀ x ∈ g a, ∀ y ∈ g b, S x y) (l : List α)
    (h : l.Pairwise R) : (l.filterMap g).Pairwise S := by
  induction l with
  | nil => simp
  | cons a l ih =>
      rcases List.pairwise_cons.mp h with ⟨ha, hl⟩
      rw [List.filterMap_cons]
      cases hga : g a with
      | none => exact ih hl
      | some x =>
          refine List.pairwise_cons.mpr ⟨?_, ih hl⟩
          intro y hy
          rcases List.mem_filterMap.mp hy with ⟨b, hb, hgb⟩
          exact hg a b (ha b hb) x (by simp [hga]) y (by simp [hgb])

/-- Ghost-indexed variant of `search`: identical control flow, but every
result entry carries the corpus position of its document, so the original
insertion order of equal-score results can be stated. -/
noncomputable def searchIdx (e : Engine) (query : String) (top_n : ℕ) :
    List (ℕ × QueryResult) :=
  if e.indexed = false ∨ pyStrip query = "" then []
  else
    let query_tokens := tokenize query
    if query_tokens = [] then []
    else
      let scores := (pyEnum 0 e.documents).filterMap
        (fun p =>
          let s := get_bm25_score e query_tokens p.1
          if 0 < s then some (p.1, mkResult p.2 s) else none)
      (sortByKeyDesc (fun r => r.2.score) scores).take top_n

theorem map_snd_orderedInsertDesc (a : ℕ × QueryResult)
    (l : List (ℕ × QueryResult)) :
    (orderedInsertDesc (fun r => r.2.score) a l).map Prod.snd =
      orderedInsertDesc (fun r => r.score) a.2 (l.map Prod.snd) := by
  induction l with
  | nil => simp [orderedInsertDesc]
  | cons b l ih =>
      unfold orderedInsertDesc
      by_cases h : b.2.score ≤ a.2.score
      · simp [h]
      · simp only [if_neg h, List.map_cons]
        rw [ih]

theorem map_snd_sortByKeyDesc (l : List (ℕ × QueryResult)) :
    (sortByKeyDesc (fun r => r.2.score) l).map Prod.snd =
      sortByKeyDesc (fun r => r.score) (l.map Prod.snd) := by
  induction l with
  | nil => simp [sortByKeyDesc]
  | cons a l ih =>
      simp only [List.map_cons, sortByKeyDesc]
      rw [map_snd_orderedInsertDesc, ih]

theorem search_eq_map_snd_searchIdx (e : Engine) (q : String) (n : ℕ) :
    search e q n = (searchIdx e q n).map Prod.snd := by
  by_cases h1 : e.indexed = false ∨ pyStrip q = ""
  · simp [search, searchIdx, h1]
  · by_cases h2 : tokenize q = []
    · simp [search, searchIdx, h1, h2]
    · simp only [search, searchIdx, if_neg h1, if_neg h2]
      rw [List.map_take, map_snd_sortByKeyDesc, List.map_filterMap]
      congr 2
      congr 1
      funext p
      by_cases hs : 0 < get_bm25_score e (tokenize q) p.1
      · simp [hs]
      · simp [hs]

/-- C5: search results are ordered by descending score, and any two results
with equal score keep their original relative corpus order.  The first
conjunct identifies `search` with the projection of the ghost-indexed
variant; the last states descending scores and, on ties, strictly
increasing corpus positions. -/
theorem c5_sorted_stable_ties (e : Engine) (q : String) (n : ℕ) :
    search e q n = (searchIdx e q n).map Prod.snd ∧
    (search e q n).Pairwise (fun r s => s.score ≤ r.score) ∧
    (searchIdx e q n).Pairwise (fun p p' => p'.2.score ≤ p.2.score ∧
      (p.2.score = p'.2.score → p.1 < p'.1)) := by
  have hidx : (searchIdx e q n).Pairwise (fun p p' => p'.2.score ≤ p.2.score ∧
      (p.2.score = p'.2.score → p.1 < p'.1)) := by
    by_cases h1 : e.indexed = false ∨ pyStrip q = ""
    · simp [searchIdx, h1]
    · by_cases h2 : tokenize q = []
      · simp [searchIdx, h1, h2]
      · simp only [searchIdx, if_neg h1, if_neg h2]
        apply List.Pairwise.sublist (List.take_sublist n _)
        apply List.Pairwise.and
        · exact sortByKeyDesc_sorted _ _
        · apply sortByKeyDesc_stable
          apply pairwise_filterMap_of _ (fun p p' => p.1 < p'.1)
          · intro a b hab x hx y hy
            by_cases hsa : 0 < get_bm25_score e (tokenize q) a.1
            · by_cases hsb : 0 < get_bm25_score e (tokenize q) b.1
              · simp only [if_pos hsa] at hx
                simp only [if_pos hsb] at hy
                simp only [Option.mem_def, Option.some.injEq] at hx hy
                rw [← hx, ← hy]
                exact hab
              · simp [if_neg hsb] at hy
            · simp [if_neg hsa] at hx
          · exact pyEnum_pairwise_fst e.documents 0
  refine ⟨search_eq_map_snd_searchIdx e q n, ?_, hidx⟩
  rw [search_eq_map_snd_searchIdx e q n, List.pairwise_map]
  exact hidx.imp (fun h => h.1)

/-! ### Claim C1 -/

theorem round4_nonneg (s : ℝ) (hs : 0 ≤ s) : 0 ≤ round4 s := by
  unfold round4
  apply div_nonneg _ (by norm_num)
  have h : (0 : ℤ) ≤ round (s * 10000) := by
    rw [round_eq]
    apply Int.floor_nonneg.mpr
    nlinarith
  exact_mod_cast h

/-- C1 (amended): every result list of `search` has length at most `top_n`
and `top_n = 0` yields `[]`; every returned entry's `score` field is the
4-digit rounding of a strictly positive raw BM25 score, hence nonnegative —
but, because of the rounding, not necessarily strictly positive (see the
counterexample). -/
theorem c1_amended_len_and_score (e : Engine) (q : String) (n : ℕ) :
    (search e q n).length ≤ n ∧ search e q 0 = [] ∧
      ∀ r ∈ search e q n, 0 ≤ r.score ∧
        ∃ s : ℝ, 0 < s ∧ r.score = round4 s := by
  by_cases h1 : e.indexed = false ∨ pyStrip q = ""
  · simp [search, h1]
  · by_cases h2 : tokenize q = []
    · simp [search, h1, h2]
    · refine ⟨?_, ?_, ?_⟩
      · rw [search_main e q n h1 h2]
        exact List.length_take_le n _
      · rw [search_main e q 0 h1 h2]
        exact List.take_zero _
      · intro r hr
        rw [search_main e q n h1 h2] at hr
        have hr2 := (mem_sortByKeyDesc _ r _).mp (List.take_subset n _ hr)
        rcases List.mem_filterMap.mp hr2 with ⟨p, _, hp⟩
        by_cases hs : 0 < get_bm25_score e (tokenize q) p.1
        · simp only [if_pos hs, Option.some.injEq] at hp
          subst hp
          exact ⟨round4_nonneg _ hs.le, _, hs, rfl⟩
        · simp [if_neg hs] at hp

set_option maxRecDepth 100000

/-- Evaluation of the scorer on a two-token query, both tokens matching the
document. -/
theorem score_double (e : Engine) (t1 t2 : String) (i : ℕ)
    (hind : e.indexed = true) (r1 r2 : ℚ) (h1 : e.idfArg t1 = some r1)
    (h2 : e.idfArg t2 = some r2) (n1 n2 : ℕ)
    (hc1 : (docTokens (e.documents.getD i default)).count t1 = n1)
    (hc2 : (docTokens (e.documents.getD i default)).count t2 = n2)
    (hn1 : n1 ≠ 0) (hn2 : n2 ≠ 0) :
    get_bm25_score e [t1, t2] i =
      termScoreRaw e.k1 e.b (Real.log ((r1 : ℚ) : ℝ)) n1
        (e.doc_len.getD i 0) e.avgdl +
      termScoreRaw e.k1 e.b (Real.log ((r2 : ℚ) : ℝ)) n2
        (e.doc_len.getD i 0) e.avgdl := by
  have hidf1 : e.idf t1 = some (Real.log ((r1 : ℚ) : ℝ)) := by
    simp [Engine.idf, h1]
  have hidf2 : e.idf t2 = some (Real.log ((r2 : ℚ) : ℝ)) := by
    simp [Engine.idf, h2]
  unfold get_bm25_score
  rw [if_neg (by simp [hind])]
  simp only [List.foldl_cons, List.foldl_nil, hidf1, hidf2]
  simp only [hc1, hc2, if_neg hn1, if_neg hn2, zero_add]

/-- Evaluation of the scorer on a two-token query whose first token does
not occur in the document. -/
theorem score_double_first_zero (e : Engine) (t1 t2 : String) (i : ℕ)
    (hind : e.indexed = true) (r1 r2 : ℚ) (h1 : e.idfArg t1 = some r1)
    (h2 : e.idfArg t2 = some r2)
    (hc1 : (docTokens (e.documents.getD i default)).count t1 = 0) (n2 : ℕ)
    (hc2 : (docTokens (e.documents.getD i default)).count t2 = n2)
    (hn2 : n2 ≠ 0) :
    get_bm25_score e [t1, t2] i =
      termScoreRaw e.k1 e.b (Real.log ((r2 : ℚ) : ℝ)) n2
        (e.doc_len.getD i 0) e.avgdl := by
  have hidf1 : e.idf t1 = some (Real.log ((r1 : ℚ) : ℝ)) := by
    simp [Engine.idf, h1]
  have hidf2 : e.idf t2 = some (Real.log ((r2 : ℚ) : ℝ)) := by
    simp [Engine.idf, h2]
  unfold get_bm25_score
  rw [if_neg (by simp [hind])]
  simp only [List.foldl_cons, List.foldl_nil, hidf1, hidf2]
  simp only [hc1, hc2, eq_self_iff_true, if_true, if_neg hn2, zero_add]

/-- The scorer returns zero when no query token occurs in the document. -/
theorem score_zero_of_counts (e : Engine) (qts : List String) (i : ℕ)
    (hc : ∀ t ∈ qts, (docTokens (e.documents.getD i default)).count t = 0) :
    get_bm25_score e qts i = 0 := by
  unfold get_bm25_score
  by_cases hind : e.indexed = false
  · rw [if_pos hind]
  · rw [if_neg hind]
    induction qts with
    | nil => simp
    | cons t qts ih =>
        have ht0 := hc t (by simp)
        simp only [List.foldl_cons]
        cases hidf : e.idf t with
        | none => exact ih (fun s hs => hc s (by simp [hs]))
        | some v =>
            simp only [ht0, if_pos rfl]
            exact ih (fun s hs => hc s (by simp [hs]))

/-- First corpus document of the C1 counterexample: 401 occurrences of
"a" followed by 400 occurrences of "b" (801 tokens). -/
def docC1Big : Document :=
  { task_id := "T1", title := "",
    description := String.join (List.replicate 401 "a ") ++
      String.join (List.replicate 400 "b "),
    location_lat := 0, location_lng := 0 }

/-- Second corpus document: the single token "b". -/
def docC1BB : Document :=
  { task_id := "T2", title := "b", description := "", location_lat := 0,
    location_lng := 0 }

/-- Third corpus document: no tokens. -/
def docC1Empty : Document :=
  { task_id := "T3", title := "", description := "", location_lat := 0,
    location_lng := 0 }

/-- The C1 counterexample index: "a" has document frequency 1
(idf `ln(5/3) > 0`), "b" has document frequency 2 (idf `ln(3/5) =
-ln(5/3)`), so the first document's raw score for the query "a b" is
`ln(5/3) * (W(401) - W(400))`, a strictly positive number below
`1/20000` that rounds to 0.0. -/
def engC1 : Engine := build_index (initEngine) [docC1Big, docC1BB, docC1Empty]

/-- C1 fails on the code as stated: on the `engC1` corpus the query "a b"
returns exactly one result whose stored `score` field is `0.0` — the raw
BM25 score is strictly positive but smaller than `0.00005`, so `round(score,
4)` (line 171) rounds it to zero.  Hence not every returned score is
strictly positive. -/
theorem c1_counterexample_rounded_score_zero :
    (search engC1 "a b" 5).map QueryResult.score = [0] ∧
    ¬ (∀ r ∈ search engC1 "a b" 5, 0 < r.score) := by
  have hia : engC1.idfArg "a" = some (5/3 : ℚ) := by
    rw [show engC1 = build_index (initEngine) [docC1Big, docC1BB, docC1Empty]
      from rfl]
    rw [build_idfArg_of_freq (initEngine) _ "a" 1 (by decide) (by decide)]
    norm_num
  have hib : engC1.idfArg "b" = some (3/5 : ℚ) := by
    rw [show engC1 = build_index (initEngine) [docC1Big, docC1BB, docC1Empty]
      from rfl]
    rw [build_idfArg_of_freq (initEngine) _ "b" 2 (by decide) (by decide)]
    norm_num
  have havg : engC1.avgdl = 802/3 := by
    rw [show engC1 = build_index (initEngine) [docC1Big, docC1BB, docC1Empty]
      from rfl]
    rw [build_avgdl_of_lens (initEngine) _ [801, 1, 0] (by decide) (by decide)]
    norm_num
  have hs0 : get_bm25_score engC1 ["a", "b"] 0 =
      termScoreRaw (3/2) (3/4) (Real.log ((5/3 : ℚ) : ℝ)) 401 801 (802/3) +
      termScoreRaw (3/2) (3/4) (Real.log ((3/5 : ℚ) : ℝ)) 400 801 (802/3) := by
    have h := score_double engC1 "a" "b" 0 rfl (5/3) (3/5) hia hib 401 400
      (by decide) (by decide) (by decide) (by decide)
    rw [h, show engC1.k1 = 3/2 from rfl, show engC1.b = 3/4 from rfl,
      show engC1.doc_len.getD 0 0 = 801 by decide, havg]
  have hlog : Real.log ((3/5 : ℚ) : ℝ) = - Real.log ((5/3 : ℚ) : ℝ) := by
    rw [show ((3/5 : ℚ) : ℝ) = (((5/3 : ℚ) : ℝ))⁻¹ by push_cast; norm_num]
    exact Real.log_inv _
  have hL1 : 0 < Real.log ((5/3 : ℚ) : ℝ) := by
    apply Real.log_pos
    push_cast
    norm_num
  have hL2 : Real.log ((5/3 : ℚ) : ℝ) ≤ 2/3 := by
    have h := Real.log_le_sub_one_of_pos
      (show (0 : ℝ) < ((5/3 : ℚ) : ℝ) by push_cast; norm_num)
    have h2 : ((5/3 : ℚ) : ℝ) - 1 = 2/3 := by push_cast; norm_num
    linarith
  have hD1 : 0 < bm25Weight (3/2) (3/4) 401 801 (802/3) -
      bm25Weight (3/2) (3/4) 400 801 (802/3) := by
    unfold bm25Weight
    push_cast
    norm_num
  have hD2 : bm25Weight (3/2) (3/4) 401 801 (802/3) -
      bm25Weight (3/2) (3/4) 400 801 (802/3) < 3/40000 := by
    unfold bm25Weight
    push_cast
    norm_num
  have hs0' : get_bm25_score engC1 ["a", "b"] 0 =
      Real.log ((5/3 : ℚ) : ℝ) * (bm25Weight (3/2) (3/4) 401 801 (802/3) -
        bm25Weight (3/2) (3/4) 400 801 (802/3)) := by
    rw [hs0, hlog]
    unfold termScoreRaw
    ring
  have hpos : 0 < get_bm25_score engC1 ["a", "b"] 0 := by
    rw [hs0']
    exact mul_pos hL1 hD1
  have hsmall : get_bm25_score engC1 ["a", "b"] 0 < 1/20000 := by
    rw [hs0']
    have h1 : Real.log ((5/3 : ℚ) : ℝ) * (bm25Weight (3/2) (3/4) 401 801 (802/3) -
        bm25Weight (3/2) (3/4) 400 801 (802/3)) ≤
        (2/3) * (bm25Weight (3/2) (3/4) 401 801 (802/3) -
        bm25Weight (3/2) (3/4) 400 801 (802/3)) :=
      mul_le_mul_of_nonneg_right hL2 hD1.le
    nlinarith
  have hs1 : get_bm25_score engC1 ["a", "b"] 1 =
      termScoreRaw (3/2) (3/4) (Real.log ((3/5 : ℚ) : ℝ)) 1 1 (802/3) := by
    have h := score_double_first_zero engC1 "a" "b" 1 rfl (5/3) (3/5) hia hib
      (by decide) 1 (by decide) (by decide)
    rw [h, show engC1.k1 = 3/2 from rfl, show engC1.b = 3/4 from rfl,
      show engC1.doc_len.getD 1 0 = 1 by decide, havg]
  have hs1neg : get_bm25_score engC1 ["a", "b"] 1 < 0 := by
    rw [hs1]
    unfold termScoreRaw
    apply mul_neg_of_neg_of_pos
    · apply Real.log_neg
      · push_cast; norm_num
      · push_cast; norm_num
    · unfold bm25Weight
      push_cast
      norm_num
  have hs2 : get_bm25_score engC1 ["a", "b"] 2 = 0 := by
    apply score_zero_of_counts
    intro t ht
    rcases List.mem_cons.mp ht with rfl | ht2
    · decide
    · rcases List.mem_cons.mp ht2 with rfl | ht3
      · decide
      · simp at ht3
  have hround : round4 (get_bm25_score engC1 ["a", "b"] 0) = 0 := by
    unfold round4
    have h0 : round (get_bm25_score engC1 ["a", "b"] 0 * 10000) = 0 := by
      rw [round_eq_zero_iff]
      constructor
      · nlinarith [hpos]
      · nlinarith [hsmall]
    rw [h0]
    simp
  have h1 : ¬ (engC1.indexed = false ∨ pyStrip "a b" = "") := by
    intro h
    rcases h with h | h
    · exact absurd h (by decide)
    · exact absurd h (by decide)
  have h2 : ¬ tokenize "a b" = [] := by decide
  have hsearch : search engC1 "a b" 5 =
      [mkResult docC1Big (get_bm25_score engC1 ["a", "b"] 0)] := by
    rw [search_main engC1 "a b" 5 h1 h2]
    rw [show tokenize "a b" = ["a", "b"] by decide]
    rw [show pyEnum 0 engC1.documents =
      [(0, docC1Big), (1, docC1BB), (2, docC1Empty)] from rfl]
    simp only [List.filterMap_cons, List.filterMap_nil]
    rw [if_pos hpos, if_neg (not_lt.mpr hs1neg.le),
      if_neg (by rw [hs2]; exact lt_irrefl 0)]
    simp [sortByKeyDesc, orderedInsertDesc]
  refine ⟨?_, ?_⟩
  · rw [hsearch]
    simp only [List.map_cons, List.map_nil, mkResult]
    rw [hround]
  · rw [hsearch]
    intro h
    have hmem := h (mkResult docC1Big (get_bm25_score engC1 ["a", "b"] 0))
      (by simp)
    have hscore : (mkResult docC1Big
        (get_bm25_score engC1 ["a", "b"] 0)).score = 0 := by
      simp only [mkResult]
      exact hround
    rw [hscore] at hmem
    exact lt_irrefl 0 hmem

/-! ### Claim C9 -/

theorem latin_not_cjk (c : Char) (h : isLatinDigit c = true) :
    isCJK c = false := by
  unfold isLatinDigit at h
  unfold isCJK
  simp only [Bool.or_eq_true, Bool.and_eq_true, decide_eq_true_eq] at h
  simp only [Bool.and_eq_false_iff, decide_eq_false_iff_not]
  omega

theorem cjk_not_latin (c : Char) (h : isCJK c = true) :
    isLatinDigit c = false := by
  unfold isCJK at h
  unfold isLatinDigit
  simp only [Bool.and_eq_true, decide_eq_true_eq] at h
  simp only [Bool.or_eq_false_iff, Bool.and_eq_false_iff,
    decide_eq_false_iff_not]
  omega

/-- Tokenizer as the spec words it (section 4.1), in a single left-to-right
pass: each CJK ideograph is emitted as its own term, each maximal
Latin-letter/digit run as a single term, and every other character is
discarded; the input is lower-cased first.  This definition follows the
spec and is proved equal to the source translation `tokenize` below. -/
def specTokenizeAux : List Char → List String
  | [] => []
  | c :: cs =>
      if isCJK c then String.mk [c] :: specTokenizeAux cs
      else if isLatinDigit c then
        String.mk (c :: cs.takeWhile isLatinDigit) ::
          specTokenizeAux (cs.dropWhile isLatinDigit)
      else specTokenizeAux cs
termination_by l => l.length
decreasing_by
  · simp
  · have h := (List.dropWhile_sublist isLatinDigit (l := cs)).length_le
    simp
    omega
  · simp

/-- Spec tokenizer on a string: lower-case, then scan. -/
def specTokenize (text : String) : List String :=
  specTokenizeAux (text.data.map pyLowerChar)

/-- The splitting pass of `tokenize` (the Python loop over the regex
matches, lines 55-62), named for the equivalence proof. -/
def splitRuns (runs : List (List Char)) : List String :=
  runs.foldr
    (fun tok acc =>
      if isCJK (tok.headD ' ') then (tok.map fun c => String.mk [c]) ++ acc
      else String.mk tok :: acc) []

theorem tokenize_eq_splitRuns (s : String) (hs : ¬ s = "") :
    tokenize s = splitRuns (findallRuns none (s.data.map pyLowerChar)) := by
  unfold tokenize splitRuns
  rw [if_neg hs]

theorem splitRuns_cons (tok : List Char) (runs : List (List Char)) :
    splitRuns (tok :: runs) =
      if isCJK (tok.headD ' ') then
        (tok.map fun c => String.mk [c]) ++ splitRuns runs
      else String.mk tok :: splitRuns runs := rfl

theorem findallRuns_none_nil : findallRuns none [] = [] := rfl

theorem findallRuns_some_nil (k : Bool) (cur : List Char) :
    findallRuns (some (k, cur)) [] = [cur.reverse] := rfl

theorem findallRuns_none_cons (c : Char) (cs : List Char) :
    findallRuns none (c :: cs) =
      (if isCJK c then findallRuns (some (true, [c])) cs
       else if isLatinDigit c then findallRuns (some (false, [c])) cs
       else findallRuns none cs) := rfl

theorem findallRuns_some_cons (k : Bool) (cur : List Char) (c : Char)
    (cs : List Char) :
    findallRuns (some (k, cur)) (c :: cs) =
      (if isCJK c then
        (if k then findallRuns (some (k, c :: cur)) cs
         else cur.reverse :: findallRuns (some (true, [c])) cs)
       else if isLatinDigit c then
        (if k then cur.reverse :: findallRuns (some (false, [c])) cs
         else findallRuns (some (k, c :: cur)) cs)
       else cur.reverse :: findallRuns none cs) := rfl

theorem reverse_head_mem (cur : List Char) (hne : cur ≠ []) :
    ∃ d ds, cur.reverse = d :: ds ∧ d ∈ cur := by
  obtain ⟨d, ds, hds⟩ := List.exists_cons_of_ne_nil
    (fun h => hne (List.reverse_eq_nil_iff.mp h))
  refine ⟨d, ds, hds, ?_⟩
  rw [← List.mem_reverse, hds]
  simp

/-- Core equivalence between the two tokenizer passes: running the
run-scanner from any pending-run state and splitting the runs afterwards
agrees with the spec's single-pass scan.  The three conjuncts cover the
scanner states: no pending run, pending CJK run, pending Latin/digit
run. -/
theorem findallRuns_splitRuns (cs : List Char) :
    (splitRuns (findallRuns none cs) = specTokenizeAux cs) ∧
    (∀ cur : List Char, cur ≠ [] → (∀ x ∈ cur, isCJK x = true) →
      splitRuns (findallRuns (some (true, cur)) cs) =
        (cur.reverse.map fun c => String.mk [c]) ++ specTokenizeAux cs) ∧
    (∀ cur : List Char, cur ≠ [] → (∀ x ∈ cur, isLatinDigit x = true) →
      splitRuns (findallRuns (some (false, cur)) cs) =
        String.mk (cur.reverse ++ cs.takeWhile isLatinDigit) ::
          specTokenizeAux (cs.dropWhile isLatinDigit)) := by
  induction cs with
  | nil =>
      refine ⟨by simp [splitRuns, findallRuns_none_nil, specTokenizeAux],
        ?_, ?_⟩
      · intro cur hne hk
        obtain ⟨d, ds, hds, hdcur⟩ := reverse_head_mem cur hne
        rw [findallRuns_some_nil, splitRuns_cons, hds]
        simp only [List.headD_cons, hk d hdcur, if_true]
        rw [← hds]
        simp [splitRuns, specTokenizeAux]
      · intro cur hne hk
        obtain ⟨d, ds, hds, hdcur⟩ := reverse_head_mem cur hne
        rw [findallRuns_some_nil, splitRuns_cons, hds]
        simp only [List.headD_cons, latin_not_cjk d (hk d hdcur),
          Bool.false_eq_true, if_false]
        rw [← hds]
        simp [splitRuns, specTokenizeAux]
  | cons c cs ih =>
      obtain ⟨ih0, ihT, ihF⟩ := ih
      by_cases hc : isCJK c = true
      · have hcl : isLatinDigit c = false := cjk_not_latin c hc
        have hone : splitRuns (findallRuns (some (true, [c])) cs) =
            String.mk [c] :: specTokenizeAux cs := by
          rw [ihT [c] (by simp) (by simpa using hc)]
          simp
        refine ⟨?_, ?_, ?_⟩
        · rw [findallRuns_none_cons, if_pos hc, hone]
          rw [show specTokenizeAux (c :: cs) =
            String.mk [c] :: specTokenizeAux cs by
              simp [specTokenizeAux, hc]]
        · intro cur hne hk
          rw [findallRuns_some_cons, if_pos hc, if_pos rfl]
          rw [ihT (c :: cur) (by simp) ?_]
          · rw [show specTokenizeAux (c :: cs) =
              String.mk [c] :: specTokenizeAux cs by
                simp [specTokenizeAux, hc]]
            simp
          · intro x hx
            rcases List.mem_cons.mp hx with rfl | hx2
            · exact hc
            · exact hk x hx2
        · intro cur hne hk
          obtain ⟨d, ds, hds, hdcur⟩ := reverse_head_mem cur hne
          rw [findallRuns_some_cons, if_pos hc, if_neg (by simp)]
          rw [splitRuns_cons, hds]
          simp only [List.headD_cons, latin_not_cjk d (hk d hdcur),
            Bool.false_eq_true, if_false]
          rw [← hds, hone]
          rw [List.takeWhile_cons_of_neg (by simp [hcl]),
            List.dropWhile_cons_of_neg (by simp [hcl])]
          rw [show specTokenizeAux (c :: cs) =
            String.mk [c] :: specTokenizeAux cs by
              simp [specTokenizeAux, hc]]
          simp
      · by_cases hl : isLatinDigit c = true
        · have hone : splitRuns (findallRuns (some (false, [c])) cs) =
              String.mk (c :: cs.takeWhile isLatinDigit) ::
                specTokenizeAux (cs.dropWhile isLatinDigit) := by
            rw [ihF [c] (by simp) (by simpa using hl)]
            simp
          have hspec : specTokenizeAux (c :: cs) =
              String.mk (c :: cs.takeWhile isLatinDigit) ::
                specTokenizeAux (cs.dropWhile isLatinDigit) := by
            simp [specTokenizeAux, hc, hl]
          refine ⟨?_, ?_, ?_⟩
          · rw [findallRuns_none_cons, if_neg (by simp [hc]), if_pos hl,
              hone, hspec]
          · intro cur hne hk
            obtain ⟨d, ds, hds, hdcur⟩ := reverse_head_mem cur hne
            rw [findallRuns_some_cons, if_neg (by simp [hc]), if_pos hl,
              if_pos rfl]
            rw [splitRuns_cons, hds]
            simp only [List.headD_cons, hk d hdcur, if_true]
            rw [← hds, hone, hspec]
          · intro cur hne hk
            rw [findallRuns_some_cons, if_neg (by simp [hc]), if_pos hl,
              if_neg (by simp)]
            rw [ihF (c :: cur) (by simp) ?_]
            · rw [List.takeWhile_cons_of_pos (by simpa using hl),
                List.dropWhile_cons_of_pos (by simpa using hl)]
              simp
            · intro x hx
              rcases List.mem_cons.mp hx with rfl | hx2
              · exact hl
              · exact hk x hx2
        · have hspec : specTokenizeAux (c :: cs) = specTokenizeAux cs := by
            simp [specTokenizeAux, hc, hl]
          refine ⟨?_, ?_, ?_⟩
          · rw [findallRuns_none_cons, if_neg (by simp [hc]),
              if_neg (by simp [hl]), ih0, hspec]
          · intro cur hne hk
            obtain ⟨d, ds, hds, hdcur⟩ := reverse_head_mem cur hne
            rw [findallRuns_some_cons, if_neg (by simp [hc]),
              if_neg (by simp [hl])]
            rw [splitRuns_cons, hds]
            simp only [List.headD_cons, hk d hdcur, if_true]
            rw [← hds, ih0, hspec]
          · intro cur hne hk
            obtain ⟨d, ds, hds, hdcur⟩ := reverse_head_mem cur hne
            rw [findallRuns_some_cons, if_neg (by simp [hc]),
              if_neg (by simp [hl])]
            rw [splitRuns_cons, hds]
            simp only [List.headD_cons, latin_not_cjk d (hk d hdcur),
              Bool.false_eq_true, if_false]
            rw [← hds, ih0]
            rw [List.takeWhile_cons_of_neg (by simp [hl]),
              List.dropWhile_cons_of_neg (by simp [hl])]
            rw [hspec]
            simp

theorem specTokenizeAux_all_other (l : List Char)
    (h : ∀ c ∈ l, isCJK c = false ∧ isLatinDigit c = false) :
    specTokenizeAux l = [] := by
  induction l with
  | nil => simp [specTokenizeAux]
  | cons c cs ih =>
      have hc := h c (by simp)
      rw [show specTokenizeAux (c :: cs) = specTokenizeAux cs by
        simp [specTokenizeAux, hc.1, hc.2]]
      exact ih (fun x hx => h x (by simp [hx]))

theorem pyIsSpace_not_token (c : Char) (h : pyIsSpace c = true) :
    isCJK (pyLowerChar c) = false ∧ isLatinDigit (pyLowerChar c) = false := by
  unfold pyIsSpace at h
  simp only [Bool.or_eq_true, decide_eq_true_eq] at h
  have hval : c.toNat ≤ 32 := by omega
  have hlow : pyLowerChar c = c := by
    unfold pyLowerChar
    rw [if_neg]
    simp only [Bool.and_eq_true, decide_eq_true_eq, not_and]
    omega
  rw [hlow]
  unfold isCJK isLatinDigit
  constructor
  · simp only [Bool.and_eq_false_iff, decide_eq_false_iff_not]
    omega
  · simp only [Bool.or_eq_false_iff, Bool.and_eq_false_iff,
      decide_eq_false_iff_not]
    omega

/-- C9: the source tokenizer equals the spec's description — lower-case,
emit each maximal Latin-letter/digit run as one term and each CJK ideograph
as its own term in left-to-right order, discard everything else — and
whitespace-only input (in particular empty input) yields the empty
sequence.  Totality, purity and determinism hold because `tokenize` is a
Lean function. -/
theorem c9_tokenize_matches_spec (s : String) :
    tokenize s = specTokenize s ∧
      ((∀ c ∈ s.data, pyIsSpace c = true) → tokenize s = []) := by
  have hmain : tokenize s = specTokenize s := by
    by_cases hs : s = ""
    · subst hs
      show tokenize "" = specTokenize ""
      rw [show tokenize "" = [] from rfl]
      unfold specTokenize
      rw [show ("" : String).data.map pyLowerChar = [] from rfl]
      simp [specTokenizeAux]
    · rw [tokenize_eq_splitRuns s hs, (findallRuns_splitRuns _).1]
      rfl
  refine ⟨hmain, ?_⟩
  intro hws
  rw [hmain]
  unfold specTokenize
  apply specTokenizeAux_all_other
  intro x hx
  rcases List.mem_map.mp hx with ⟨c, hc, rfl⟩
  exact pyIsSpace_not_token c (hws c hc)

theorem c9_tokenize_matches_spec_witness :
    (∀ c ∈ ("   " : String).data, pyIsSpace c = true) ∧
    (tokenize "   " = specTokenize "   " ∧ tokenize "   " = []) :=
  ⟨by decide,
    (c9_tokenize_matches_spec "   ").1,
    (c9_tokenize_matches_spec "   ").2 (by decide)⟩
